import Mathlib

/-!
Shallow embedding of the clientdb entity store (src/clientdb/entity/store.ts).

An entity is modelled as a record whose `oid` field stands for JavaScript
object identity and whose `fields` assoc-list stands for its string-valued
data fields.  The store state is the pair kept by `createEntityStore`: the
ordered `items` array and the `itemsMap` identity map (a JavaScript object,
modelled as an assoc list with in-place key update).  Mutating operations
return the produced value, the successor state, and a trace of effects
(emitted events, entity-disposer invocations, teardown actions); the
effect trace stands in for the event emitter and cleanup objects whose
sources (utils/eventManager, entity cleanup) are not part of src.
-/

/-- An entity: `oid` models object identity, `fields` the data record. -/
structure Entity where
  oid : Nat
  fields : List (String × String)
  deriving DecidableEq, Repr

/-- Field access with JavaScript template-string coercion: an absent field
reads as the string "undefined" (as in the `getEntityId` template literal). -/
def getField (e : Entity) (key : String) : String :=
  match e.fields.lookup key with
  | some v => v
  | none => "undefined"

/-- The slice of `EntityDefinition.config` that `store.ts` reads:
`keyField` names the identity field, `accessValidator` is the optional
per-entity visibility predicate (its own logic is external, so it is an
arbitrary boolean function here). -/
structure EntityConfig where
  keyField : String
  accessValidator : Option (Entity → Bool)

/-- `getEntityId` from store.ts: the string coercion of the keyField value. -/
def getEntityId (cfg : EntityConfig) (e : Entity) : String :=
  getField e cfg.keyField

/-- Lookup in the identity map (JavaScript object property read). -/
def mapLookup : List (String × Entity) → String → Option Entity
  | [], _ => none
  | (k, v) :: rest, key => if k = key then some v else mapLookup rest key

/-- Property assignment `itemsMap[id] = entity`: updates the existing key in
place, otherwise appends the new key. -/
def mapInsert : List (String × Entity) → String → Entity → List (String × Entity)
  | [], key, v => [(key, v)]
  | (k, w) :: rest, key, v =>
      if k = key then (key, v) :: rest else (k, w) :: mapInsert rest key v

/-- Property deletion `delete itemsMap[id]`. -/
def mapDelete : List (String × Entity) → String → List (String × Entity)
  | [], _ => []
  | (k, w) :: rest, key =>
      if k = key then mapDelete rest key else (k, w) :: mapDelete rest key

/-- The two store collections of `createEntityStore`: the ordered observable
array `items` and the id-to-entity map `itemsMap`. -/
structure StoreState where
  items : List Entity
  itemsMap : List (String × Entity)
  deriving DecidableEq, Repr

/-- The store right after `createEntityStore`. -/
def emptyStore : StoreState := ⟨[], []⟩

/-- Observable effects of store operations: the events emitted on the store
event channel, entity-disposer invocations (`entity.cleanup.clean()`), and
the teardown actions of `destroy`. -/
inductive StoreEffect where
  | itemAdded (e : Entity) (source : String)
  | itemRemoved (e : Entity) (source : String)
  | disposedEntity (e : Entity)
  | cleanupsCleaned
  | indexDestroyed (key : String)
  | eventsDestroyed
  deriving DecidableEq, Repr

/-- Result of `add`. -/
structure AddResult where
  returned : Entity
  state : StoreState
  effects : List StoreEffect
  deriving DecidableEq, Repr

/-- Result of `removeById`. -/
structure RemoveResult where
  returned : Bool
  state : StoreState
  effects : List StoreEffect
  deriving DecidableEq, Repr

/-- Result of `destroy`. -/
structure DestroyResult where
  state : StoreState
  effects : List StoreEffect
  deriving DecidableEq, Repr

/-- `mobx` `items.remove(entity)`: removes the first occurrence found by
reference equality. -/
def removeFirst : List Entity → Entity → List Entity
  | [], _ => []
  | x :: xs, e => if x = e then xs else x :: removeFirst xs e

/-- Multiplicity of an entity reference in the items array. -/
def countEntity : List Entity → Entity → Nat
  | [], _ => 0
  | x :: xs, e => (if x = e then 1 else 0) + countEntity xs e

/-- `store.add(entity, source)`: computes the identity, pushes onto `items`,
writes `itemsMap[id]`, emits `itemAdded`, returns the entity. -/
def addOp (cfg : EntityConfig) (s : StoreState) (e : Entity) (source : String) : AddResult :=
  { returned := e
    state := { items := s.items ++ [e]
               itemsMap := mapInsert s.itemsMap (getEntityId cfg e) e }
    effects := [.itemAdded e source] }

/-- `store.removeById(id, source)`: reads `itemsMap[id]`; on absence returns
false with no effect; otherwise runs the entity disposer, removes the entity
reference from `items` (returning whether one was found), deletes the map
entry and emits `itemRemoved`. -/
def removeByIdOp (cfg : EntityConfig) (s : StoreState) (id source : String) : RemoveResult :=
  match mapLookup s.itemsMap id with
  | none => { returned := false, state := s, effects := [] }
  | some entity =>
      { returned := decide (entity ∈ s.items)
        state := { items := removeFirst s.items entity
                   itemsMap := mapDelete s.itemsMap id }
        effects := [.disposedEntity entity, .itemRemoved entity source] }

/-- The access check of store.ts: when a validator is configured it decides
visibility, otherwise every entity is visible (`getIsEntityAccessable` is
only created when `config.accessValidator` is set). -/
def getIsEntityAccessable (cfg : EntityConfig) (e : Entity) : Bool :=
  match cfg.accessValidator with
  | none => true
  | some v => v e

/-- `findById` from store.ts: map lookup, null when absent or when a
configured validator rejects the entity. -/
def findById (cfg : EntityConfig) (s : StoreState) (id : String) : Option Entity :=
  match mapLookup s.itemsMap id with
  | none => none
  | some e => if getIsEntityAccessable cfg e then some e else none

/-- `getRootSource` from store.ts: the items array, filtered by the access
validator when one is configured. -/
def getRootSource (cfg : EntityConfig) (s : StoreState) : List Entity :=
  match cfg.accessValidator with
  | none => s.items
  | some v => s.items.filter v

/-- Insert into a list sorted by the boolean comparator `le`. -/
def insertSorted (le : Entity → Entity → Bool) (e : Entity) : List Entity → List Entity
  | [] => [e]
  | x :: xs => if le e x then e :: x :: xs else x :: insertSorted le e xs

/-- Sorting by a comparator (insertion sort; the deterministic sort used to
read off a sorted query result). -/
def sortByComparator (le : Entity → Entity → Bool) (l : List Entity) : List Entity :=
  l.foldr (insertSorted le) []

/-- Modelled from the spec: `createEntityQuery` (query.ts, not in src).  Per
section 4.3 a query view derives `all` from one cached computation: take the
access-filtered root collection (`getRootSource`, which is in src), apply the
filter predicate, apply the sort comparator. -/
def queryAll (cfg : EntityConfig) (s : StoreState) (P : Entity → Bool)
    (S : Entity → Entity → Bool) : List Entity :=
  sortByComparator S ((getRootSource cfg s).filter P)

/-- Modelled from the spec: the field index bucket read `find(value)`
(queryIndex.ts, not in src).  Per the section 3 FieldIndex invariant the
bucket for a value holds exactly the entities currently in the store whose
field equals that value, in store insertion order; the access restriction is
applied by the store-level check of `findByUniqueIndex` (store.ts lines
192-204), which is the code under verification here. -/
def indexFind (cfg : EntityConfig) (s : StoreState) (key value : String) : List Entity :=
  s.items.filter (fun e => getField e key == value)

/-- Result of `findByUniqueIndex`: the returned entity (if any) and whether
the ambiguous-unique-index diagnostic (`console.warn`) was recorded. -/
structure UniqueFindResult where
  result : Option Entity
  warned : Bool
  deriving DecidableEq, Repr

/-- The body of `store.findByUniqueIndex` applied to the list the field index
returned: null on empty; warn when more than one match; take the first
match; null when a configured validator rejects it. -/
def findByUniqueIndexOn (cfg : EntityConfig) (results : List Entity) : UniqueFindResult :=
  match results with
  | [] => { result := none, warned := false }
  | r :: rest =>
      { result := if getIsEntityAccessable cfg r then some r else none
        warned := !rest.isEmpty }

/-- `store.findByUniqueIndex(key, value)`: delegate to the field index, then
apply the store-level selection and access check. -/
def findByUniqueIndex (cfg : EntityConfig) (s : StoreState) (key value : String) :
    UniqueFindResult :=
  findByUniqueIndexOn cfg (indexFind cfg s key value)

/-- The NotFound error raised by the assert helpers; carries the message. -/
structure NotFound where
  msg : String
  deriving DecidableEq, Repr

/-- `store.assertFindById(id, error)`: `assert(item, error ?? default)` with
the default message of store.ts; the assert helper (utils/assert, not in
src) is modelled from the spec as raising NotFound with the given message
when the looked-up item is null. -/
def assertFindById (cfg : EntityConfig) (s : StoreState) (id : String)
    (error : Option String) : Except NotFound Entity :=
  match findById cfg s id with
  | some e => .ok e
  | none => .error ⟨error.getD ("No item found for id " ++ id)⟩

/-- `store.assertFindByUniqueIndex(key, value)` with the fixed message of
store.ts. -/
def assertFindByUniqueIndex (cfg : EntityConfig) (s : StoreState) (key value : String) :
    Except NotFound Entity :=
  match (findByUniqueIndex cfg s key value).result with
  | some e => .ok e
  | none =>
      .error ⟨"Assertion error for assertFindByUniqueIndex for key " ++ key ++
        " and value " ++ value⟩

/-- `store.destroy()`: cleans the store-level cleanup object (nothing in
store.ts ever registers into it), destroys every created field index
(`ks` lists their keys) and the event channel.  The items array and the
identity map are not touched. -/
def destroyOp (cfg : EntityConfig) (s : StoreState) (ks : List String) : DestroyResult :=
  { state := s
    effects := .cleanupsCleaned :: (ks.map .indexDestroyed ++ [.eventsDestroyed]) }

/-- A CRUD operation issued against the store. -/
inductive StoreOp where
  | add (e : Entity) (source : String)
  | removeById (id : String) (source : String)
  deriving Repr

/-- State transition of one operation (the state component of the op). -/
def applyOp (cfg : EntityConfig) (s : StoreState) : StoreOp → StoreState
  | .add e source => (addOp cfg s e source).state
  | .removeById id source => (removeByIdOp cfg s id source).state

/-- State after a sequence of operations. -/
def applyOps (cfg : EntityConfig) (s : StoreState) (ops : List StoreOp) : StoreState :=
  ops.foldl (applyOp cfg) s

/-- Checks that every `add` of the trace uses an identity that is not live in
the identity map at that point. -/
def freshOps (cfg : EntityConfig) : StoreState → List StoreOp → Bool
  | _, [] => true
  | s, op :: rest =>
      (match op with
       | .add e _ => (mapLookup s.itemsMap (getEntityId cfg e)).isNone
       | .removeById _ _ => true) && freshOps cfg (applyOp cfg s op) rest

/-- Checks that no operation of the trace touches the given identity: no add
of an entity with that identity and no removeById of it. -/
def untouched (cfg : EntityConfig) (id : String) : List StoreOp → Bool
  | [] => true
  | .add e _ :: rest => decide (getEntityId cfg e ≠ id) && untouched cfg id rest
  | .removeById rid _ :: rest => decide (rid ≠ id) && untouched cfg id rest

/-- Identities of the entities in the ordered sequence. -/
def entityIds (cfg : EntityConfig) (s : StoreState) : List String :=
  s.items.map (getEntityId cfg)

/-- Key set of the identity map. -/
def mapKeys (m : List (String × Entity)) : List String :=
  m.map Prod.fst

/-- The store registry invariant: every sequence entry is found in the map
under its identity, every map entry is a sequence entry keyed by its
identity, and no identity occurs twice in the sequence. -/
def StoreInv (cfg : EntityConfig) (s : StoreState) : Prop :=
  (∀ e, e ∈ s.items → mapLookup s.itemsMap (getEntityId cfg e) = some e) ∧
  (∀ k v, mapLookup s.itemsMap k = some v → v ∈ s.items ∧ getEntityId cfg v = k) ∧
  (entityIds cfg s).Nodup

/-- Modelled from the spec: `deepMemoize` with checkEquality (utils/deepMap,
not in src).  The cache maps argument keys, compared by structural equality,
to the token of the QueryView instance created for them; `next` is the token
the next freshly created view will get (tokens model object identity of the
returned QueryView). -/
structure QueryCache (κ : Type) where
  entries : List (κ × Nat)
  next : Nat

/-- Structural-equality lookup in the memoization cache. -/
def cacheLookup {κ : Type} [DecidableEq κ] : List (κ × Nat) → κ → Option Nat
  | [], _ => none
  | (k, v) :: rest, key => if k = key then some v else cacheLookup rest key

/-- `createOrReuseQuery` from store.ts, i.e. `deepMemoize(createEntityQuery
arguments)`: on a cache hit return the cached view instance, on a miss create
a fresh instance and cache it under the arguments. -/
def createOrReuseQuery {κ : Type} [DecidableEq κ] (c : QueryCache κ) (args : κ) :
    Nat × QueryCache κ :=
  match cacheLookup c.entries args with
  | some q => (q, c)
  | none => (c.next, ⟨(args, c.next) :: c.entries, c.next + 1⟩)

/-- A sequence of further `query` calls made against the cache. -/
def applyQueryCalls {κ : Type} [DecidableEq κ] (c : QueryCache κ) (argss : List κ) :
    QueryCache κ :=
  argss.foldl (fun c a => (createOrReuseQuery c a).2) c

/-- Fixture: a definition config with keyField "id" and no access validator. -/
def cfgPlain : EntityConfig := { keyField := "id", accessValidator := none }

/-- Fixture: a config whose access validator accepts exactly the entities
whose "ok" field is "1". -/
def cfgGuard : EntityConfig :=
  { keyField := "id", accessValidator := some (fun e => getField e "ok" == "1") }

/-- Fixture entities. -/
def eA1 : Entity := ⟨1, [("id", "a"), ("grp", "x"), ("ok", "1")]⟩

def eA2 : Entity := ⟨2, [("id", "a"), ("grp", "x"), ("ok", "1")]⟩

def eB : Entity := ⟨3, [("id", "b"), ("grp", "y"), ("ok", "1")]⟩

def eH1 : Entity := ⟨4, [("id", "h1"), ("grp", "x"), ("ok", "0")]⟩

def eH2 : Entity := ⟨5, [("id", "h2"), ("grp", "x"), ("ok", "1")]⟩


theorem mapLookup_mapInsert_self (m : List (String × Entity)) (k : String) (v : Entity) :
    mapLookup (mapInsert m k v) k = some v := by
  induction m with
  | nil => simp [mapInsert, mapLookup]
  | cons p rest ih =>
      obtain ⟨k', w⟩ := p
      by_cases h : k' = k
      · simp [mapInsert, mapLookup, h]
      · simp [mapInsert, mapLookup, h, ih]

theorem mapLookup_mapInsert_ne (m : List (String × Entity)) (k k' : String) (v : Entity)
    (h : k' ≠ k) : mapLookup (mapInsert m k v) k' = mapLookup m k' := by
  induction m with
  | nil => simp [mapInsert, mapLookup, Ne.symm h]
  | cons p rest ih =>
      obtain ⟨k₀, w⟩ := p
      by_cases h0 : k₀ = k
      · subst h0
        simp [mapInsert, mapLookup, Ne.symm h]
      · simp [mapInsert, mapLookup, h0, ih]

theorem mapLookup_mapDelete_self (m : List (String × Entity)) (k : String) :
    mapLookup (mapDelete m k) k = none := by
  induction m with
  | nil => simp [mapDelete, mapLookup]
  | cons p rest ih =>
      obtain ⟨k₀, w⟩ := p
      by_cases h0 : k₀ = k
      · simp [mapDelete, h0, ih]
      · simp [mapDelete, mapLookup, h0, ih]

theorem mapLookup_mapDelete_ne (m : List (String × Entity)) (k k' : String)
    (h : k' ≠ k) : mapLookup (mapDelete m k) k' = mapLookup m k' := by
  induction m with
  | nil => simp [mapDelete]
  | cons p rest ih =>
      obtain ⟨k₀, w⟩ := p
      by_cases h0 : k₀ = k
      · subst h0
        simp [mapDelete, mapLookup, Ne.symm h, ih]
      · simp [mapDelete, mapLookup, h0, ih]

theorem mapLookup_isSome_iff_mem_keys (m : List (String × Entity)) (k : String) :
    (mapLookup m k).isSome = true ↔ k ∈ mapKeys m := by
  induction m with
  | nil => simp [mapLookup, mapKeys]
  | cons p rest ih =>
      obtain ⟨k₀, w⟩ := p
      by_cases h0 : k₀ = k
      · simp [mapLookup, mapKeys, h0]
      · simp [mapLookup, mapKeys, h0, Ne.symm h0, ih]

theorem mem_of_countEntity_pos (l : List Entity) (e : Entity) (h : 0 < countEntity l e) :
    e ∈ l := by
  induction l with
  | nil => simp [countEntity] at h
  | cons x xs ih =>
      by_cases hx : x = e
      · subst hx
        exact List.mem_cons_self x xs
      · simp only [countEntity, if_neg hx, Nat.zero_add] at h
        exact List.mem_cons_of_mem _ (ih h)

theorem countEntity_eq_zero_iff (l : List Entity) (e : Entity) :
    countEntity l e = 0 ↔ e ∉ l := by
  induction l with
  | nil => simp [countEntity]
  | cons x xs ih =>
      by_cases hx : x = e
      · subst hx
        simp [countEntity]
      · simp [countEntity, hx, ih, Ne.symm hx]

theorem not_mem_removeFirst_of_countEntity_one (l : List Entity) (e : Entity)
    (h : countEntity l e = 1) : e ∉ removeFirst l e := by
  induction l with
  | nil => simp [removeFirst]
  | cons x xs ih =>
      by_cases hx : x = e
      · subst hx
        simp [countEntity] at h
        have h0 : countEntity xs x = 0 := by omega
        have hrw : removeFirst (x :: xs) x = xs := by simp [removeFirst]
        rw [hrw]
        exact (countEntity_eq_zero_iff xs x).mp h0
      · have h' : countEntity xs e = 1 := by simpa [countEntity, hx] using h
        simp only [removeFirst, if_neg hx, List.mem_cons]
        rintro (rfl | hm)
        · exact hx rfl
        · exact ih h' hm

theorem removeFirst_sublist (l : List Entity) (e : Entity) :
    (removeFirst l e).Sublist l := by
  induction l with
  | nil => simp [removeFirst]
  | cons x xs ih =>
      by_cases hx : x = e
      · simpa [removeFirst, hx] using List.sublist_cons_self x xs
      · simpa [removeFirst, hx] using ih.cons₂ x

theorem mem_of_mem_removeFirst (l : List Entity) (e e' : Entity)
    (h : e' ∈ removeFirst l e) : e' ∈ l :=
  (removeFirst_sublist l e).subset h

theorem mem_removeFirst_of_ne (l : List Entity) (e e' : Entity) (hne : e' ≠ e)
    (h : e' ∈ l) : e' ∈ removeFirst l e := by
  induction l with
  | nil => simp at h
  | cons x xs ih =>
      by_cases hx : x = e
      · subst hx
        rcases List.mem_cons.mp h with rfl | hm
        · exact absurd rfl hne
        · simpa [removeFirst] using hm
      · rcases List.mem_cons.mp h with rfl | hm
        · simp [removeFirst, hx]
        · simp [removeFirst, hx, List.mem_cons, ih hm]

theorem countEntity_pos_of_mem (l : List Entity) (e : Entity) (h : e ∈ l) :
    0 < countEntity l e := by
  induction l with
  | nil => simp at h
  | cons x xs ih =>
      by_cases hx : x = e
      · simp [countEntity, hx]
      · rcases List.mem_cons.mp h with rfl | hm
        · exact absurd rfl hx
        · simp only [countEntity, if_neg hx, Nat.zero_add]
          exact ih hm

theorem filter_filter_bool (p q : Entity → Bool) (l : List Entity) :
    (l.filter q).filter p = l.filter (fun e => p e && q e) := by
  induction l with
  | nil => simp
  | cons x xs ih => by_cases hq : q x <;> by_cases hp : p x <;> simp [hq, hp, ih]

/-- C3: for every filter predicate P and sort comparator S, `query(P, S).all`
equals the sort by S of the entities of the store satisfying P, restricted to
the entities passing the configured access validator (all entities when no
validator is configured). -/
theorem query_all_eq_sorted_accessible_filter (cfg : EntityConfig) (s : StoreState)
    (P : Entity → Bool) (S : Entity → Entity → Bool) :
    queryAll cfg s P S =
      sortByComparator S (s.items.filter (fun e => P e && getIsEntityAccessable cfg e)) := by
  unfold queryAll getRootSource
  cases h : cfg.accessValidator with
  | none => simp [getIsEntityAccessable, h]
  | some v => simp [getIsEntityAccessable, h, filter_filter_bool]

theorem cacheLookup_after_call {κ : Type} [DecidableEq κ] (c : QueryCache κ) (a : κ) :
    cacheLookup (createOrReuseQuery c a).2.entries a = some (createOrReuseQuery c a).1 := by
  unfold createOrReuseQuery
  cases h : cacheLookup c.entries a with
  | none => simp [cacheLookup]
  | some q => simp [h]

theorem cacheLookup_preserved {κ : Type} [DecidableEq κ] (c : QueryCache κ) (a b : κ)
    (q : Nat) (h : cacheLookup c.entries a = some q) :
    cacheLookup (createOrReuseQuery c b).2.entries a = some q := by
  unfold createOrReuseQuery
  cases hb : cacheLookup c.entries b with
  | none =>
      have hab : b ≠ a := by
        rintro rfl
        rw [h] at hb
        cases hb
      simp [cacheLookup, hab, h]
  | some q' => simp [h]

theorem createOrReuseQuery_fst_of_hit {κ : Type} [DecidableEq κ] (c : QueryCache κ) (a : κ)
    (q : Nat) (h : cacheLookup c.entries a = some q) : (createOrReuseQuery c a).1 = q := by
  unfold createOrReuseQuery
  rw [h]

theorem cacheLookup_preserved_many {κ : Type} [DecidableEq κ] (c : QueryCache κ) (a : κ)
    (q : Nat) (others : List κ) (h : cacheLookup c.entries a = some q) :
    cacheLookup (applyQueryCalls c others).entries a = some q := by
  induction others generalizing c with
  | nil => simpa [applyQueryCalls] using h
  | cons b rest ih =>
      have hstep := cacheLookup_preserved c a b q h
      simpa [applyQueryCalls] using ih _ hstep

/-- C4: two `query` calls with structurally equal arguments return the same
QueryView instance: the instance token of a repeated `createOrReuseQuery`
call, after any sequence of other calls, is the token the first call
returned (and the repeated call allocates nothing). -/
theorem query_memo_stable {κ : Type} [DecidableEq κ] (c : QueryCache κ) (a : κ)
    (others : List κ) :
    (createOrReuseQuery (applyQueryCalls (createOrReuseQuery c a).2 others) a).1 =
      (createOrReuseQuery c a).1 := by
  have h1 := cacheLookup_after_call c a
  have h2 := cacheLookup_preserved_many (createOrReuseQuery c a).2 a
    (createOrReuseQuery c a).1 others h1
  exact createOrReuseQuery_fst_of_hit _ a _ h2

/-- C5: `findByUniqueIndex(key, v)` returns null when no entity holds value v
for the key; returns the sole match when exactly one does (and it passes the
access check); when more than one entity holds v it still returns the first
match, in index order, and records the non-fatal ambiguity diagnostic without
failing; and it returns null when the first match is rejected by the
configured access validator. -/
theorem findByUniqueIndex_cases (cfg : EntityConfig) (s : StoreState) (key value : String) :
    (indexFind cfg s key value = [] → (findByUniqueIndex cfg s key value).result = none) ∧
    (∀ e, indexFind cfg s key value = [e] → getIsEntityAccessable cfg e = true →
      (findByUniqueIndex cfg s key value).result = some e ∧
      (findByUniqueIndex cfg s key value).warned = false) ∧
    (∀ e rest, indexFind cfg s key value = e :: rest → rest ≠ [] →
      getIsEntityAccessable cfg e = true →
      (findByUniqueIndex cfg s key value).result = some e ∧
      (findByUniqueIndex cfg s key value).warned = true) ∧
    (∀ e rest, indexFind cfg s key value = e :: rest →
      getIsEntityAccessable cfg e = false →
      (findByUniqueIndex cfg s key value).result = none) := by
  refine ⟨?_, ?_, ?_, ?_⟩
  · intro h
    simp [findByUniqueIndex, findByUniqueIndexOn, h]
  · intro e h ha
    simp [findByUniqueIndex, findByUniqueIndexOn, h, ha]
  · intro e rest h hrest ha
    cases rest with
    | nil => exact absurd rfl hrest
    | cons r rs => simp [findByUniqueIndex, findByUniqueIndexOn, h, ha]
  · intro e rest h ha
    simp [findByUniqueIndex, findByUniqueIndexOn, h, ha]

/-- C5 witness: with the guard validator and entities eA1 (grp "x", ok),
eH1 (grp "x", not ok), eB (grp "y", ok) in the store, the three concrete
cases of `findByUniqueIndex_cases` hold: lookup of grp "z" is null; lookup
of grp "y" returns eB without the diagnostic; lookup of grp "x" on a store
holding eA1 and eA2 returns the first match with the diagnostic recorded;
lookup of grp "x" on a store headed by the inaccessible eH1 is null. -/
theorem findByUniqueIndex_cases_witness :
    (findByUniqueIndex cfgGuard ⟨[eA1, eH1, eB], []⟩ "grp" "z").result = none ∧
    ((findByUniqueIndex cfgGuard ⟨[eA1, eH1, eB], []⟩ "grp" "y").result = some eB ∧
      (findByUniqueIndex cfgGuard ⟨[eA1, eH1, eB], []⟩ "grp" "y").warned = false) ∧
    ((findByUniqueIndex cfgGuard ⟨[eA1, eA2], []⟩ "grp" "x").result = some eA1 ∧
      (findByUniqueIndex cfgGuard ⟨[eA1, eA2], []⟩ "grp" "x").warned = true) ∧
    (findByUniqueIndex cfgGuard ⟨[eH1, eH2], []⟩ "grp" "x").result = none := by
  refine ⟨?_, ?_, ?_, ?_⟩
  · exact (findByUniqueIndex_cases cfgGuard ⟨[eA1, eH1, eB], []⟩ "grp" "z").1 (by decide)
  · exact (findByUniqueIndex_cases cfgGuard ⟨[eA1, eH1, eB], []⟩ "grp" "y").2.1 eB
      (by decide) (by decide)
  · exact (findByUniqueIndex_cases cfgGuard ⟨[eA1, eA2], []⟩ "grp" "x").2.2.1 eA1 [eA2]
      (by decide) (by decide) (by decide)
  · exact (findByUniqueIndex_cases cfgGuard ⟨[eH1, eH2], []⟩ "grp" "x").2.2.2 eH1 [eH2]
      (by decide) (by decide)

/-- C6: the lookups `findById`, `find` and `findByUniqueIndex` are total and
never raise (they are Option and List valued in this embedding); the assert
variants raise NotFound exactly when the corresponding lookup is null, with
`assertFindById` carrying the caller-supplied message when one is given and
its default message otherwise, and they return the looked-up entity
otherwise. -/
theorem assert_lookup_contract (cfg : EntityConfig) (s : StoreState) (id : String)
    (error : Option String) (key value : String) :
    (∀ e, findById cfg s id = some e → assertFindById cfg s id error = .ok e) ∧
    (findById cfg s id = none →
      assertFindById cfg s id error = .error ⟨error.getD ("No item found for id " ++ id)⟩) ∧
    (∀ e, (findByUniqueIndex cfg s key value).result = some e →
      assertFindByUniqueIndex cfg s key value = .ok e) ∧
    ((findByUniqueIndex cfg s key value).result = none →
      assertFindByUniqueIndex cfg s key value =
        .error ⟨"Assertion error for assertFindByUniqueIndex for key " ++ key ++
          " and value " ++ value⟩) := by
  refine ⟨?_, ?_, ?_, ?_⟩
  · intro e h
    simp [assertFindById, h]
  · intro h
    simp [assertFindById, h]
  · intro e h
    simp [assertFindByUniqueIndex, h]
  · intro h
    simp [assertFindByUniqueIndex, h]

/-- C6 witness: on a store holding only eA1, `assertFindById` succeeds with
eA1 on its id, fails with the caller message on a missing id, and the
unique-index assert succeeds on grp "x" and fails with the fixed message on
grp "z". -/
theorem assert_lookup_contract_witness :
    assertFindById cfgPlain ⟨[eA1], [("a", eA1)]⟩ "a" none = .ok eA1 ∧
    assertFindById cfgPlain ⟨[eA1], [("a", eA1)]⟩ "missing" (some "boom") =
      .error ⟨"boom"⟩ ∧
    assertFindByUniqueIndex cfgPlain ⟨[eA1], [("a", eA1)]⟩ "grp" "x" = .ok eA1 ∧
    assertFindByUniqueIndex cfgPlain ⟨[eA1], [("a", eA1)]⟩ "grp" "z" =
      .error ⟨"Assertion error for assertFindByUniqueIndex for key grp and value z"⟩ := by
  refine ⟨?_, ?_, ?_, ?_⟩
  · exact (assert_lookup_contract cfgPlain ⟨[eA1], [("a", eA1)]⟩ "a" none "grp" "x").1 eA1
      (by decide)
  · exact (assert_lookup_contract cfgPlain ⟨[eA1], [("a", eA1)]⟩ "missing" (some "boom")
      "grp" "x").2.1 (by decide)
  · exact (assert_lookup_contract cfgPlain ⟨[eA1], [("a", eA1)]⟩ "a" none "grp" "x").2.2.1
      eA1 (by decide)
  · exact (assert_lookup_contract cfgPlain ⟨[eA1], [("a", eA1)]⟩ "a" none "grp" "z").2.2.2
      (by decide)

/-- C9: for an entity in the identity map that the configured access
validator rejects, `findById` of its identity returns null, yet `removeById`
of the same identity still returns true, invokes the entity disposer,
removes it from the sequence and the map, and emits `itemRemoved`: removal
is decided by map presence alone, not by accessibility. -/
theorem removeById_ignores_access (cfg : EntityConfig) (v : Entity → Bool) (s : StoreState)
    (id source : String) (e : Entity) (hv : cfg.accessValidator = some v)
    (hm : mapLookup s.itemsMap id = some e) (hrej : v e = false)
    (hcnt : countEntity s.items e = 1) :
    findById cfg s id = none ∧
    (removeByIdOp cfg s id source).returned = true ∧
    (removeByIdOp cfg s id source).effects = [.disposedEntity e, .itemRemoved e source] ∧
    e ∉ (removeByIdOp cfg s id source).state.items ∧
    mapLookup (removeByIdOp cfg s id source).state.itemsMap id = none := by
  have hmem : e ∈ s.items := mem_of_countEntity_pos s.items e (by omega)
  refine ⟨?_, ?_, ?_, ?_, ?_⟩
  · simp [findById, hm, getIsEntityAccessable, hv, hrej]
  · simp [removeByIdOp, hm, hmem]
  · simp [removeByIdOp, hm]
  · simpa [removeByIdOp, hm] using not_mem_removeFirst_of_countEntity_one s.items e hcnt
  · simpa [removeByIdOp, hm] using mapLookup_mapDelete_self s.itemsMap id

/-- C9 witness: with the guard validator and the store holding only the
inaccessible eH1 under id "h1", findById is null while removeById succeeds
with full removal effects. -/
theorem removeById_ignores_access_witness :
    findById cfgGuard ⟨[eH1], [("h1", eH1)]⟩ "h1" = none ∧
    (removeByIdOp cfgGuard ⟨[eH1], [("h1", eH1)]⟩ "h1" "user").returned = true ∧
    (removeByIdOp cfgGuard ⟨[eH1], [("h1", eH1)]⟩ "h1" "user").effects =
      [.disposedEntity eH1, .itemRemoved eH1 "user"] ∧
    eH1 ∉ (removeByIdOp cfgGuard ⟨[eH1], [("h1", eH1)]⟩ "h1" "user").state.items ∧
    mapLookup (removeByIdOp cfgGuard ⟨[eH1], [("h1", eH1)]⟩ "h1" "user").state.itemsMap
      "h1" = none :=
  removeById_ignores_access cfgGuard (fun e => getField e "ok" == "1")
    ⟨[eH1], [("h1", eH1)]⟩ "h1" "user" eH1 rfl (by decide) (by decide) (by decide)

/-- C10: when the field index reports several matches, the access validator
is consulted only for the first: if the first match is rejected,
`findByUniqueIndex` returns null even though a later match would pass the
validator. -/
theorem findByUniqueIndex_first_match_only (cfg : EntityConfig) (v : Entity → Bool)
    (s : StoreState) (key value : String) (e e' : Entity) (rest : List Entity)
    (hv : cfg.accessValidator = some v)
    (hfind : indexFind cfg s key value = e :: rest)
    (hrej : v e = false) (hmem : e' ∈ rest) (hpass : v e' = true) :
    (findByUniqueIndex cfg s key value).result = none := by
  simp [findByUniqueIndex, findByUniqueIndexOn, hfind, getIsEntityAccessable, hv, hrej]

/-- C10 witness: with the guard validator and the store holding eH1 (not ok)
before eH2 (ok), both with grp "x", the unique-index lookup of grp "x"
returns null although eH2 would pass the validator. -/
theorem findByUniqueIndex_first_match_only_witness :
    (findByUniqueIndex cfgGuard ⟨[eH1, eH2], []⟩ "grp" "x").result = none :=
  findByUniqueIndex_first_match_only cfgGuard (fun e => getField e "ok" == "1")
    ⟨[eH1, eH2], []⟩ "grp" "x" eH1 eH2 [eH2] rfl (by decide) (by decide)
    (by decide) (by decide)

theorem mapLookup_preserved_untouched (cfg : EntityConfig) (id : String) (e : Entity) :
    ∀ (ops : List StoreOp) (s : StoreState), mapLookup s.itemsMap id = some e →
      untouched cfg id ops = true → mapLookup (applyOps cfg s ops).itemsMap id = some e := by
  intro ops
  induction ops with
  | nil =>
      intro s hm _
      simpa [applyOps] using hm
  | cons op rest ih =>
      intro s hm hu
      cases op with
      | add e' src =>
          have hu' : getEntityId cfg e' ≠ id ∧ untouched cfg id rest = true := by
            simpa [untouched] using hu
          have hstep : mapLookup (applyOp cfg s (.add e' src)).itemsMap id = some e := by
            simpa [applyOp, addOp, mapLookup_mapInsert_ne _ _ _ _ (Ne.symm hu'.1)] using hm
          exact ih (applyOp cfg s (.add e' src)) hstep hu'.2
      | removeById rid src =>
          have hu' : rid ≠ id ∧ untouched cfg id rest = true := by
            simpa [untouched] using hu
          have hstep : mapLookup (applyOp cfg s (.removeById rid src)).itemsMap id = some e := by
            cases hl : mapLookup s.itemsMap rid with
            | none => simpa [applyOp, removeByIdOp, hl] using hm
            | some ent =>
                simpa [applyOp, removeByIdOp, hl,
                  mapLookup_mapDelete_ne _ _ _ (Ne.symm hu'.1)] using hm
          exact ih (applyOp cfg s (.removeById rid src)) hstep hu'.2

/-- C1 counterexample: eA1 is added under identity "a" and never removed via
removeById, no access validator is configured, yet after a later add of the
distinct entity eA2 with the same identity, `findById` of that identity
returns eA2, not eA1.  The claim fails as stated on duplicate-identity adds. -/
theorem findById_duplicate_add_ce :
    findById cfgPlain (applyOps cfgPlain emptyStore [.add eA1 "user", .add eA2 "user"])
      (getEntityId cfgPlain eA1) = some eA2 ∧ eA2 ≠ eA1 := by
  constructor
  · rfl
  · decide

/-- C1 amended: for every entity E passed to `add`, if no subsequent
operation touches the identity of E (no add with the same identity, no
removeById of it) and, when an access validator is configured, it accepts E,
then `findById` of the identity of E returns E. -/
theorem findById_after_add_untouched (cfg : EntityConfig) (s : StoreState) (e : Entity)
    (source : String) (ops : List StoreOp)
    (h1 : untouched cfg (getEntityId cfg e) ops = true)
    (h2 : getIsEntityAccessable cfg e = true) :
    findById cfg (applyOps cfg (applyOp cfg s (.add e source)) ops)
      (getEntityId cfg e) = some e := by
  have hm0 : mapLookup (applyOp cfg s (.add e source)).itemsMap (getEntityId cfg e) =
      some e := by
    simp [applyOp, addOp, mapLookup_mapInsert_self]
  have hm1 := mapLookup_preserved_untouched cfg (getEntityId cfg e) e ops
    (applyOp cfg s (.add e source)) hm0 h1
  simp [findById, hm1, h2]

/-- C1 amended witness: after adding eA1 and then adding eB and removing "b",
findById of the identity of eA1 returns eA1. -/
theorem findById_after_add_untouched_witness :
    findById cfgPlain
      (applyOps cfgPlain (applyOp cfgPlain emptyStore (.add eA1 "user"))
        [.add eB "user", .removeById "b" "user"])
      (getEntityId cfgPlain eA1) = some eA1 :=
  findById_after_add_untouched cfgPlain emptyStore eA1 "user"
    [.add eB "user", .removeById "b" "user"] (by decide) (by decide)

/-- C2 counterexample: when the same entity object eA1 was added twice, its
identity "a" is present in the map, removeById "a" returns true and deletes
the map entry, but the entity is still in the ordered sequence afterwards
(only the first array occurrence is removed), so the claim that the entity
is removed from the ordered sequence fails as stated. -/
theorem removeById_duplicate_add_ce :
    mapLookup (applyOps cfgPlain emptyStore
      [.add eA1 "user", .add eA1 "user"]).itemsMap "a" = some eA1 ∧
    (removeByIdOp cfgPlain
      (applyOps cfgPlain emptyStore [.add eA1 "user", .add eA1 "user"])
      "a" "user").returned = true ∧
    eA1 ∈ (removeByIdOp cfgPlain
      (applyOps cfgPlain emptyStore [.add eA1 "user", .add eA1 "user"])
      "a" "user").state.items := by
  refine ⟨rfl, rfl, ?_⟩
  decide

/-- C2 amended: `removeById(id)` on an absent identity returns false, leaves
the state unchanged and emits nothing; on a present identity it returns
true, invokes the entity disposer, deletes the map entry, emits exactly one
`itemRemoved` and makes the following `findById(id)` return null, and it
removes the entity from the ordered sequence provided the entity occurs
there exactly once (always the case unless the same entity object was added
more than once; only the first occurrence is removed otherwise). -/
theorem removeById_contract (cfg : EntityConfig) (s : StoreState) (id source : String) :
    (mapLookup s.itemsMap id = none →
      removeByIdOp cfg s id source = ⟨false, s, []⟩) ∧
    (∀ e, mapLookup s.itemsMap id = some e → countEntity s.items e = 1 →
      (removeByIdOp cfg s id source).returned = true ∧
      (removeByIdOp cfg s id source).effects =
        [.disposedEntity e, .itemRemoved e source] ∧
      e ∉ (removeByIdOp cfg s id source).state.items ∧
      mapLookup (removeByIdOp cfg s id source).state.itemsMap id = none ∧
      findById cfg (removeByIdOp cfg s id source).state id = none) := by
  constructor
  · intro h
    simp [removeByIdOp, h]
  · intro e hm hcnt
    have hmem : e ∈ s.items := mem_of_countEntity_pos s.items e (by omega)
    refine ⟨?_, ?_, ?_, ?_, ?_⟩
    · simp [removeByIdOp, hm, hmem]
    · simp [removeByIdOp, hm]
    · simpa [removeByIdOp, hm] using not_mem_removeFirst_of_countEntity_one s.items e hcnt
    · simpa [removeByIdOp, hm] using mapLookup_mapDelete_self s.itemsMap id
    · simp [findById, removeByIdOp, hm, mapLookup_mapDelete_self]

/-- C2 amended witness: on the store holding exactly eA1 under "a",
removeById of an absent id is a no-op returning false, and removeById "a"
returns true with the full removal effects. -/
theorem removeById_contract_witness :
    removeByIdOp cfgPlain ⟨[eA1], [("a", eA1)]⟩ "zz" "user" =
      ⟨false, ⟨[eA1], [("a", eA1)]⟩, []⟩ ∧
    (removeByIdOp cfgPlain ⟨[eA1], [("a", eA1)]⟩ "a" "user").returned = true ∧
    (removeByIdOp cfgPlain ⟨[eA1], [("a", eA1)]⟩ "a" "user").effects =
      [.disposedEntity eA1, .itemRemoved eA1 "user"] ∧
    eA1 ∉ (removeByIdOp cfgPlain ⟨[eA1], [("a", eA1)]⟩ "a" "user").state.items ∧
    mapLookup (removeByIdOp cfgPlain ⟨[eA1], [("a", eA1)]⟩ "a" "user").state.itemsMap
      "a" = none ∧
    findById cfgPlain (removeByIdOp cfgPlain ⟨[eA1], [("a", eA1)]⟩ "a" "user").state
      "a" = none := by
  refine ⟨?_, ?_⟩
  · exact (removeById_contract cfgPlain ⟨[eA1], [("a", eA1)]⟩ "zz" "user").1 (by decide)
  · exact (removeById_contract cfgPlain ⟨[eA1], [("a", eA1)]⟩ "a" "user").2 eA1
      (by decide) (by decide)

theorem not_mem_removeFirst_of_nodup (l : List Entity) (e : Entity) (h : l.Nodup) :
    e ∉ removeFirst l e := by
  induction l with
  | nil => simp [removeFirst]
  | cons x xs ih =>
      by_cases hx : x = e
      · subst hx
        simpa [removeFirst] using (List.nodup_cons.mp h).1
      · simp only [removeFirst, if_neg hx, List.mem_cons]
        rintro (rfl | hm)
        · exact hx rfl
        · exact ih (List.nodup_cons.mp h).2 hm

theorem storeInv_empty (cfg : EntityConfig) : StoreInv cfg emptyStore := by
  refine ⟨?_, ?_, ?_⟩
  · intro e he
    simp [emptyStore] at he
  · intro k v hk
    simp [emptyStore, mapLookup] at hk
  · simp [entityIds, emptyStore]

theorem storeInv_add (cfg : EntityConfig) (s : StoreState) (e : Entity) (source : String)
    (hinv : StoreInv cfg s)
    (hfresh : mapLookup s.itemsMap (getEntityId cfg e) = none) :
    StoreInv cfg (addOp cfg s e source).state := by
  obtain ⟨h1, h2, h3⟩ := hinv
  refine ⟨?_, ?_, ?_⟩
  · intro e' he'
    have he2 : e' ∈ s.items ∨ e' = e := by simpa [addOp] using he'
    rcases he2 with hm | rfl
    · have hne : getEntityId cfg e' ≠ getEntityId cfg e := by
        intro heq
        have := h1 e' hm
        rw [heq, hfresh] at this
        cases this
      rw [show (addOp cfg s e source).state.itemsMap =
        mapInsert s.itemsMap (getEntityId cfg e) e from rfl]
      rw [mapLookup_mapInsert_ne _ _ _ _ hne]
      exact h1 e' hm
    · rw [show (addOp cfg s e' source).state.itemsMap =
        mapInsert s.itemsMap (getEntityId cfg e') e' from rfl]
      exact mapLookup_mapInsert_self _ _ _
  · intro k v hk
    have hk' : mapLookup (mapInsert s.itemsMap (getEntityId cfg e) e) k = some v := hk
    by_cases hke : k = getEntityId cfg e
    · subst hke
      rw [mapLookup_mapInsert_self] at hk'
      obtain rfl : e = v := Option.some.inj hk'
      exact ⟨by simp [addOp], rfl⟩
    · rw [mapLookup_mapInsert_ne _ _ _ _ hke] at hk'
      obtain ⟨hv1, hv2⟩ := h2 k v hk'
      exact ⟨by simp [addOp, hv1], hv2⟩
  · have hnotin : getEntityId cfg e ∉ entityIds cfg s := by
      intro hmem
      obtain ⟨e', he', heq⟩ := List.mem_map.mp (by simpa [entityIds] using hmem)
      have := h1 e' he'
      rw [heq, hfresh] at this
      cases this
    have hrw : entityIds cfg (addOp cfg s e source).state =
        entityIds cfg s ++ [getEntityId cfg e] := by
      simp [entityIds, addOp]
    rw [hrw]
    refine List.Nodup.append h3 (List.nodup_singleton _) ?_
    intro x hx hx'
    have hxe : x = getEntityId cfg e := by simpa using hx'
    subst hxe
    exact hnotin hx

theorem storeInv_remove (cfg : EntityConfig) (s : StoreState) (id source : String)
    (hinv : StoreInv cfg s) : StoreInv cfg (removeByIdOp cfg s id source).state := by
  obtain ⟨h1, h2, h3⟩ := hinv
  cases hl : mapLookup s.itemsMap id with
  | none =>
      have hrw : (removeByIdOp cfg s id source).state = s := by simp [removeByIdOp, hl]
      rw [hrw]
      exact ⟨h1, h2, h3⟩
  | some ent =>
      obtain ⟨hent_mem, hent_id⟩ := h2 id ent hl
      have hitems_nodup : s.items.Nodup := h3.of_map
      have hrw_items : (removeByIdOp cfg s id source).state.items =
          removeFirst s.items ent := by simp [removeByIdOp, hl]
      have hrw_map : (removeByIdOp cfg s id source).state.itemsMap =
          mapDelete s.itemsMap id := by simp [removeByIdOp, hl]
      refine ⟨?_, ?_, ?_⟩
      · intro e' he'
        rw [hrw_items] at he'
        have he's : e' ∈ s.items := mem_of_mem_removeFirst _ _ _ he'
        have hne_ent : e' ≠ ent := by
          intro heq
          exact not_mem_removeFirst_of_nodup s.items ent hitems_nodup (heq ▸ he')
        have hid_ne : getEntityId cfg e' ≠ id := by
          intro heq
          have hx := h1 e' he's
          rw [heq, hl] at hx
          exact hne_ent (Option.some.inj hx).symm
        rw [hrw_map, mapLookup_mapDelete_ne _ _ _ hid_ne]
        exact h1 e' he's
      · intro k v hk
        rw [hrw_map] at hk
        have hkne : k ≠ id := by
          intro heq
          rw [heq, mapLookup_mapDelete_self] at hk
          cases hk
        rw [mapLookup_mapDelete_ne _ _ _ hkne] at hk
        obtain ⟨hv1, hv2⟩ := h2 k v hk
        have hvne : v ≠ ent := by
          intro heq
          subst heq
          rw [hent_id] at hv2
          exact hkne hv2.symm
        refine ⟨?_, hv2⟩
        rw [hrw_items]
        exact mem_removeFirst_of_ne s.items ent v hvne hv1
      · have hsub : ((removeByIdOp cfg s id source).state.items.map
            (getEntityId cfg)).Sublist (s.items.map (getEntityId cfg)) := by
          rw [hrw_items]
          exact (removeFirst_sublist _ _).map _
        exact h3.sublist hsub

theorem storeInv_preserved (cfg : EntityConfig) :
    ∀ (ops : List StoreOp) (s : StoreState), StoreInv cfg s →
      freshOps cfg s ops = true → StoreInv cfg (applyOps cfg s ops) := by
  intro ops
  induction ops with
  | nil =>
      intro s h _
      simpa [applyOps] using h
  | cons op rest ih =>
      intro s h hf
      cases op with
      | add e src =>
          have hf' : (mapLookup s.itemsMap (getEntityId cfg e)).isNone = true ∧
              freshOps cfg (applyOp cfg s (.add e src)) rest = true := by
            simpa [freshOps] using hf
          exact ih (applyOp cfg s (.add e src))
            (storeInv_add cfg s e src h (Option.isNone_iff_eq_none.mp hf'.1)) hf'.2
      | removeById id src =>
          have hf' : freshOps cfg (applyOp cfg s (.removeById id src)) rest = true := by
            simpa [freshOps] using hf
          exact ih (applyOp cfg s (.removeById id src))
            (storeInv_remove cfg s id src h) hf'

/-- C7 counterexample: after add eA1, add eA2 (distinct entities, both with
identity "a") the ordered sequence carries the identity "a" twice, and after
a following removeById "a" the identity "a" is still carried by a live
sequence entry while it is absent from the key set of the map — both parts
of the claimed invariant fail on duplicate-identity adds. -/
theorem store_invariant_duplicate_add_ce :
    ¬ (entityIds cfgPlain
        (applyOps cfgPlain emptyStore [.add eA1 "user", .add eA2 "user"])).Nodup ∧
    "a" ∈ entityIds cfgPlain
      (applyOps cfgPlain emptyStore
        [.add eA1 "user", .add eA2 "user", .removeById "a" "user"]) ∧
    "a" ∉ mapKeys
      (applyOps cfgPlain emptyStore
        [.add eA1 "user", .add eA2 "user", .removeById "a" "user"]).itemsMap := by
  refine ⟨?_, ?_, ?_⟩ <;> decide

/-- C7 amended: after every sequence of add and removeById operations in
which each add uses an identity that is not live in the identity map at that
moment, the set of identities of the ordered sequence equals the key set of
the identity map, and no two live sequence entries carry the same identity. -/
theorem store_invariant_fresh_ops (cfg : EntityConfig) (ops : List StoreOp)
    (h : freshOps cfg emptyStore ops = true) :
    (∀ k, k ∈ entityIds cfg (applyOps cfg emptyStore ops) ↔
      k ∈ mapKeys (applyOps cfg emptyStore ops).itemsMap) ∧
    (entityIds cfg (applyOps cfg emptyStore ops)).Nodup := by
  obtain ⟨h1, h2, h3⟩ := storeInv_preserved cfg ops emptyStore (storeInv_empty cfg) h
  refine ⟨?_, h3⟩
  intro k
  constructor
  · intro hk
    obtain ⟨e, he, heq⟩ := List.mem_map.mp (by simpa [entityIds] using hk)
    have hx := h1 e he
    rw [heq] at hx
    exact (mapLookup_isSome_iff_mem_keys _ k).mp (by simp [hx])
  · intro hk
    have hsome := (mapLookup_isSome_iff_mem_keys
      (applyOps cfg emptyStore ops).itemsMap k).mpr hk
    cases hl : mapLookup (applyOps cfg emptyStore ops).itemsMap k with
    | none => rw [hl] at hsome; cases hsome
    | some v =>
        obtain ⟨hv1, hv2⟩ := h2 k v hl
        simpa [entityIds] using List.mem_map.mpr ⟨v, hv1, hv2⟩

/-- C7 amended witness: the trace add eA1, add eB, removeById "a" is fresh,
and afterwards "b" is in both the sequence identities and the map key set,
and the sequence identities are duplicate free. -/
theorem store_invariant_fresh_ops_witness :
    freshOps cfgPlain emptyStore
      [.add eA1 "user", .add eB "user", .removeById "a" "user"] = true ∧
    ("b" ∈ entityIds cfgPlain (applyOps cfgPlain emptyStore
        [.add eA1 "user", .add eB "user", .removeById "a" "user"]) ↔
      "b" ∈ mapKeys (applyOps cfgPlain emptyStore
        [.add eA1 "user", .add eB "user", .removeById "a" "user"]).itemsMap) ∧
    (entityIds cfgPlain (applyOps cfgPlain emptyStore
      [.add eA1 "user", .add eB "user", .removeById "a" "user"])).Nodup :=
  ⟨by decide,
    (store_invariant_fresh_ops cfgPlain
      [.add eA1 "user", .add eB "user", .removeById "a" "user"] (by decide)).1 "b",
    (store_invariant_fresh_ops cfgPlain
      [.add eA1 "user", .add eB "user", .removeById "a" "user"] (by decide)).2⟩

/-- C8 counterexample: on a store holding eA1 under "a", `destroy` leaves the
entity in the ordered sequence and in the identity map and never invokes its
disposer — contrary to the claim that destroy performs per-entity
destruction like removeById. -/
theorem destroy_keeps_entities_ce :
    (destroyOp cfgPlain ⟨[eA1], [("a", eA1)]⟩ ["grp"]).state.items = [eA1] ∧
    mapLookup (destroyOp cfgPlain ⟨[eA1], [("a", eA1)]⟩ ["grp"]).state.itemsMap "a" =
      some eA1 ∧
    StoreEffect.disposedEntity eA1 ∉
      (destroyOp cfgPlain ⟨[eA1], [("a", eA1)]⟩ ["grp"]).effects := by
  refine ⟨rfl, rfl, ?_⟩
  decide

/-- C8 amended: `destroy` cleans the registered store-level cleanups,
destroys every created field index and the event channel; it does not invoke
the disposer of any remaining entity, emits no `itemRemoved`, and leaves the
ordered sequence and the identity map unchanged. -/
theorem destroy_effects_spec (cfg : EntityConfig) (s : StoreState) (ks : List String) :
    (destroyOp cfg s ks).state = s ∧
    (∀ e, StoreEffect.disposedEntity e ∉ (destroyOp cfg s ks).effects) ∧
    (∀ e src, StoreEffect.itemRemoved e src ∉ (destroyOp cfg s ks).effects) ∧
    StoreEffect.cleanupsCleaned ∈ (destroyOp cfg s ks).effects ∧
    (∀ k, k ∈ ks → StoreEffect.indexDestroyed k ∈ (destroyOp cfg s ks).effects) ∧
    StoreEffect.eventsDestroyed ∈ (destroyOp cfg s ks).effects := by
  refine ⟨rfl, ?_, ?_, ?_, ?_, ?_⟩
  · intro e
    simp [destroyOp]
  · intro e src
    simp [destroyOp]
  · simp [destroyOp]
  · intro k hk
    simp only [destroyOp]
    exact List.mem_cons_of_mem _ (List.mem_append_left _ (List.mem_map_of_mem _ hk))
  · simp [destroyOp]

/-- C8 amended witness: concrete instance of the destroy contract on the
store holding eA1 with one created index "grp". -/
theorem destroy_effects_spec_witness :
    (destroyOp cfgPlain ⟨[eA1], [("a", eA1)]⟩ ["grp"]).state = ⟨[eA1], [("a", eA1)]⟩ ∧
    StoreEffect.disposedEntity eA1 ∉
      (destroyOp cfgPlain ⟨[eA1], [("a", eA1)]⟩ ["grp"]).effects ∧
    StoreEffect.itemRemoved eA1 "user" ∉
      (destroyOp cfgPlain ⟨[eA1], [("a", eA1)]⟩ ["grp"]).effects ∧
    StoreEffect.cleanupsCleaned ∈
      (destroyOp cfgPlain ⟨[eA1], [("a", eA1)]⟩ ["grp"]).effects ∧
    StoreEffect.indexDestroyed "grp" ∈
      (destroyOp cfgPlain ⟨[eA1], [("a", eA1)]⟩ ["grp"]).effects ∧
    StoreEffect.eventsDestroyed ∈
      (destroyOp cfgPlain ⟨[eA1], [("a", eA1)]⟩ ["grp"]).effects :=
  ⟨(destroy_effects_spec cfgPlain ⟨[eA1], [("a", eA1)]⟩ ["grp"]).1,
    (destroy_effects_spec cfgPlain ⟨[eA1], [("a", eA1)]⟩ ["grp"]).2.1 eA1,
    (destroy_effects_spec cfgPlain ⟨[eA1], [("a", eA1)]⟩ ["grp"]).2.2.1 eA1 "user",
    (destroy_effects_spec cfgPlain ⟨[eA1], [("a", eA1)]⟩ ["grp"]).2.2.2.1,
    (destroy_effects_spec cfgPlain ⟨[eA1], [("a", eA1)]⟩ ["grp"]).2.2.2.2.1 "grp"
      (by decide),
    (destroy_effects_spec cfgPlain ⟨[eA1], [("a", eA1)]⟩ ["grp"]).2.2.2.2.2⟩
